import Mathlib

/-!
Verification of the raycasting game core (game/settings.py, game/world.py,
game/player.py, game/renderer.py) against its specification.

Modelling conventions:
* Python floats are idealized as exact rationals (ℚ); Python ints are ℤ.
* Python truncation by int(..) on a float-floor-division result equals the
  mathematical floor, since the operand is already integral.
* Stateful methods become functions returning the updated record (and the
  Python return value where the method has one).
-/

namespace Game

/-- settings.py: SCREEN_HEIGHT = 768 (used as a rational in the renderer). -/
def SCREEN_HEIGHT : ℚ := 768

/-- settings.py: PLAYER_SPEED = 5.0 -/
def PLAYER_SPEED : ℚ := 5

/-- settings.py: RENDER_DISTANCE = 20 (in tiles). -/
def RENDER_DISTANCE : ℚ := 20

/-- settings.py: TILE_SIZE = 64 (pixels per tile edge). -/
def TILE_SIZE : ℚ := 64

/-- settings.py: POINTS_PER_KILL = 50 -/
def POINTS_PER_KILL : ℤ := 50

/-- settings.py: GRAY = (128, 128, 128) -/
def GRAY : ℤ × ℤ × ℤ := (128, 128, 128)

/-- settings.py: DARK_GRAY = (64, 64, 64) -/
def DARK_GRAY : ℤ × ℤ × ℤ := (64, 64, 64)

/-- The world state of world.py's World class.  The Zombie and Bullet actor
classes are not implemented anywhere in the repository (spawn_zombie is a TODO
stub), so the element types of the two actor lists are type parameters. -/
structure World (Z B : Type) where
  map_data : List (List ℤ)
  zombies : List Z
  bullets : List B
  wave : ℤ
  zombies_remaining : ℤ
  zombies_killed : ℤ

/-- world.py World.__init__: the built-in 20×15 map, 0 = open, 1 = wall. -/
def builtinMap : List (List ℤ) :=
  [[1,1,1,1,1,1,1,1,1,1,1,1,1,1,1,1,1,1,1,1],
   [1,0,0,0,0,0,0,0,0,1,1,0,0,0,0,0,0,0,0,1],
   [1,0,0,0,0,0,0,0,0,1,1,0,0,0,0,0,0,0,0,1],
   [1,0,0,0,0,0,0,0,0,0,0,0,0,0,0,0,0,0,0,1],
   [1,0,0,0,0,0,0,0,0,0,0,0,0,0,0,0,0,0,0,1],
   [1,0,0,0,1,1,1,0,0,0,0,0,0,1,1,1,0,0,0,1],
   [1,0,0,0,1,0,0,0,0,0,0,0,0,0,0,1,0,0,0,1],
   [1,0,0,0,1,0,0,0,0,0,0,0,0,0,0,1,0,0,0,1],
   [1,0,0,0,0,0,0,0,0,0,0,0,0,0,0,0,0,0,0,1],
   [1,0,0,0,0,0,0,0,0,0,0,0,0,0,0,0,0,0,0,1],
   [1,0,0,0,0,0,0,1,1,1,1,1,1,0,0,0,0,0,0,1],
   [1,0,0,0,0,0,0,0,0,0,0,0,0,0,0,0,0,0,0,1],
   [1,0,0,0,0,0,0,0,0,0,0,0,0,0,0,0,0,0,0,1],
   [1,0,0,0,0,0,0,0,0,0,0,0,0,0,0,0,0,0,0,1],
   [1,1,1,1,1,1,1,1,1,1,1,1,1,1,1,1,1,1,1,1]]

/-- world.py World.__init__: fresh world (wave 1, no actors, nothing pending). -/
def World.init (Z B : Type) : World Z B :=
  { map_data := builtinMap, zombies := [], bullets := [],
    wave := 1, zombies_remaining := 0, zombies_killed := 0 }

/-- Map width in tiles: len(self.map_data[0]). -/
def World.width {Z B : Type} (w : World Z B) : ℕ := (w.map_data.headD []).length

/-- Map height in tiles: len(self.map_data). -/
def World.height {Z B : Type} (w : World Z B) : ℕ := w.map_data.length

/-- The raw tile lookup self.map_data[grid_y][grid_x] (only used after the
bounds guards, so the indices are nonnegative and in range). -/
def World.tileAt {Z B : Type} (w : World Z B) (gx gy : ℤ) : ℤ :=
  (w.map_data.getD gy.toNat []).getD gx.toNat 0

/-- world.py World.is_wall: floor-divides the continuous coordinates by
TILE_SIZE, treats every out-of-bounds index as a wall, and otherwise tests
whether the tile code equals 1. -/
def World.is_wall {Z B : Type} (w : World Z B) (x y : ℚ) : Bool :=
  let gx : ℤ := ⌊x / TILE_SIZE⌋
  let gy : ℤ := ⌊y / TILE_SIZE⌋
  if gx < 0 ∨ (w.width : ℤ) ≤ gx ∨ gy < 0 ∨ (w.height : ℤ) ≤ gy then
    true
  else
    w.tileAt gx gy == 1

/-- world.py World.get_wall_at: sentinel 1 outside the grid, raw code inside. -/
def World.get_wall_at {Z B : Type} (w : World Z B) (gx gy : ℤ) : ℤ :=
  if gx < 0 ∨ (w.width : ℤ) ≤ gx ∨ gy < 0 ∨ (w.height : ℤ) ≤ gy then
    1
  else
    w.tileAt gx gy

/-- The player state of player.py's Player class. -/
structure Player where
  x : ℚ
  y : ℚ
  angle : ℚ
  health : ℤ
  max_health : ℤ
  points : ℤ
  ammo : ℤ
  max_ammo : ℤ
  speed : ℚ

/-- player.py Player.__init__. -/
def Player.init (x y : ℚ) : Player :=
  { x := x, y := y, angle := 0, health := 100, max_health := 100,
    points := 500, ammo := 8, max_ammo := 8, speed := PLAYER_SPEED }

/-- player.py Player.shoot: returns (Python return value, updated player). -/
def Player.shoot (p : Player) : Bool × Player :=
  if 0 < p.ammo then (true, { p with ammo := p.ammo - 1 }) else (false, p)

/-- player.py Player.take_damage: subtracts, clamps at 0, and returns True
whenever the post-subtraction health is ≤ 0. -/
def Player.take_damage (p : Player) (damage : ℤ) : Bool × Player :=
  let h := p.health - damage
  if h ≤ 0 then (true, { p with health := 0 }) else (false, { p with health := h })

/-- player.py Player.add_points. -/
def Player.add_points (p : Player) (n : ℤ) : Player :=
  { p with points := p.points + n }

/-- player.py Player.update: axis-separated movement with collision checks
against the world, X axis first, Y axis against the possibly updated X. -/
def Player.update {Z B : Type} (p : Player) (dt mx my : ℚ) (w : World Z B) : Player :=
  if mx ≠ 0 ∨ my ≠ 0 then
    let nx := p.x + mx * p.speed * dt * TILE_SIZE
    let ny := p.y + my * p.speed * dt * TILE_SIZE
    let p1 := if w.is_wall nx p.y then p else { p with x := nx }
    if w.is_wall p1.x ny then p1 else { p1 with y := ny }
  else
    p

/-- player.py Player.rotate, first loop: while angle < 0, add the period.
The float constant 2*math.pi is modelled as a parameter p; the loop body runs
exactly when the source's guard holds (the source's period is positive, which
the 0 < p conjunct records so that the recursion is well founded). -/
def norm_up (p a : ℚ) : ℚ :=
  if h : 0 < p ∧ a < 0 then norm_up p (a + p) else a
  termination_by (⌈-a / p⌉).toNat
  decreasing_by
    have hp := h.1
    have ha := h.2
    have key : -(a + p) / p = -a / p - 1 := by
      field_simp
      ring
    have hkey : ⌈-(a + p) / p⌉ = ⌈-a / p⌉ - 1 := by
      rw [key]
      exact_mod_cast Int.ceil_sub_int (-a / p) 1
    have hpos : (0 : ℚ) < -a / p := div_pos (by linarith) hp
    have hcpos : 0 < ⌈-a / p⌉ := Int.ceil_pos.2 hpos
    omega

/-- player.py Player.rotate, second loop: while angle ≥ the period, subtract it. -/
def norm_down (p a : ℚ) : ℚ :=
  if h : 0 < p ∧ p ≤ a then norm_down p (a - p) else a
  termination_by (⌊a / p⌋).toNat
  decreasing_by
    have hp := h.1
    have ha := h.2
    have key : (a - p) / p = a / p - 1 := by
      field_simp
    have hkey : ⌊(a - p) / p⌋ = ⌊a / p⌋ - 1 := by
      rw [key]
      exact_mod_cast Int.floor_sub_int (a / p) 1
    have hpos : (1 : ℚ) ≤ a / p := (one_le_div hp).2 ha
    have hcpos : 1 ≤ ⌊a / p⌋ := by
      exact_mod_cast Int.le_floor.2 (by exact_mod_cast hpos)
    omega

/-- player.py Player.rotate: add the delta, then run the two normalization
loops in sequence; p stands for the source's float constant 2*math.pi. -/
def Player.rotate (p : Player) (twoPi delta : ℚ) : Player :=
  { p with angle := norm_down twoPi (norm_up twoPi (p.angle + delta)) }

/-- renderer.py _cast_ray: step_size = 4 (pixels). -/
def STEP_SIZE : ℚ := 4

/-- The march limit RENDER_DISTANCE * TILE_SIZE, in pixels. -/
def rayLimit : ℚ := RENDER_DISTANCE * TILE_SIZE

/-- The loop of renderer.py _cast_ray.  The while loop runs at most
rayLimit / STEP_SIZE = 320 iterations, since distance starts at 0 and grows by
STEP_SIZE each pass; the fuel argument carries exactly that bound, and when it
reaches 0 the accumulated distance has reached the limit, so the fuel-exhausted
result coincides with the loop's own exit result (rayLimit, 0). -/
def castRayLoop {Z B : Type} (w : World Z B) (dx dy : ℚ) :
    ℕ → ℚ → ℚ → ℚ → ℚ × ℤ
  | 0, _, _, _ => (rayLimit, 0)
  | fuel + 1, x, y, dist =>
    if dist < rayLimit then
      let x' := x + dx * STEP_SIZE
      let y' := y + dy * STEP_SIZE
      let d' := dist + STEP_SIZE
      if w.is_wall x' y' then
        (d', w.get_wall_at ⌊x' / TILE_SIZE⌋ ⌊y' / TILE_SIZE⌋)
      else
        castRayLoop w dx dy fuel x' y' d'
    else
      (rayLimit, 0)

/-- Iteration bound of the march: rayLimit / STEP_SIZE = 1280 / 4 = 320. -/
def maxRaySteps : ℕ := 320

/-- renderer.py Renderer._cast_ray.  The source computes the direction as
(cos angle, sin angle); the direction components dx, dy are taken as rational
parameters here. -/
def cast_ray {Z B : Type} (w : World Z B) (start_x start_y dx dy : ℚ) : ℚ × ℤ :=
  castRayLoop w dx dy maxRaySteps start_x start_y 0

/-- renderer.py render_3d_view: projected wall-strip height for one column,
including the distance ≤ 0 fallback branch. -/
def wall_height (distance : ℚ) : ℚ :=
  if 0 < distance then
    min (TILE_SIZE / distance * SCREEN_HEIGHT) SCREEN_HEIGHT
  else
    SCREEN_HEIGHT

/-- renderer.py render_3d_view: shade_factor = max(0.1, 1.0 - distance / RENDER_DISTANCE). -/
def shade_factor (distance : ℚ) : ℚ :=
  max (1 / 10) (1 - distance / RENDER_DISTANCE)

/-- Python int() on a float: truncation toward zero. -/
def pyInt (q : ℚ) : ℤ :=
  if 0 ≤ q then ⌊q⌋ else ⌈q⌉

/-- renderer.py render_3d_view: self.wall_colors.get(wall_type, GRAY). -/
def wall_color_of (t : ℤ) : ℤ × ℤ × ℤ :=
  if t = 1 then GRAY else if t = 2 then DARK_GRAY else GRAY

/-- renderer.py render_3d_view: tuple(int(c * shade_factor) for c in wall_color),
with the distance exactly as reported by _cast_ray (a pixel-valued quantity). -/
def shaded_color (c : ℤ × ℤ × ℤ) (distance : ℚ) : ℤ × ℤ × ℤ :=
  (pyInt (c.1 * shade_factor distance),
   pyInt (c.2.1 * shade_factor distance),
   pyInt (c.2.2 * shade_factor distance))

/-- The shading the specification describes: the falloff argument is the hit
distance measured in world units (tile edges), i.e. the reported pixel distance
divided by TILE_SIZE, over the render distance in the same units.  Stated only
to be compared against shaded_color, which embeds the source. -/
def spec_shaded_color (c : ℤ × ℤ × ℤ) (distance : ℚ) : ℤ × ℤ × ℤ :=
  (pyInt (c.1 * max (1 / 10) (1 - distance / TILE_SIZE / RENDER_DISTANCE)),
   pyInt (c.2.1 * max (1 / 10) (1 - distance / TILE_SIZE / RENDER_DISTANCE)),
   pyInt (c.2.2 * max (1 / 10) (1 - distance / TILE_SIZE / RENDER_DISTANCE)))

/-- world.py World._start_next_wave: the quota the new wave receives. -/
def next_wave_quota (wave : ℤ) : ℤ := wave * 6

/-- world.py World._start_next_wave: increment the wave, then set
zombies_remaining = wave * 6. -/
def World.start_next_wave {Z B : Type} (w : World Z B) : World Z B :=
  { w with wave := w.wave + 1, zombies_remaining := next_wave_quota (w.wave + 1) }

/-- world.py World.update.  The Zombie and Bullet classes are absent from the
repository, so their per-actor update functions and status predicates are
parameters (zupd, zhealth, bupd, bdead); the two for-loops over the actor
lists become folds: a zombie whose updated health is ≤ 0 is dropped, counted,
and awards POINTS_PER_KILL, and a bullet flagged should_remove is dropped.
When both the active list and the pending spawn count are empty afterwards,
the next wave starts. -/
def World.update {Z B : Type} (zupd : ℚ → Player → Z → Z) (zhealth : Z → ℤ)
    (bupd : ℚ → B → B) (bdead : B → Bool) (dt : ℚ) (w : World Z B)
    (pl : Player) : World Z B × Player :=
  let zstep := fun (acc : List Z × ℤ × Player) (z : Z) =>
    let z' := zupd dt acc.2.2 z
    if zhealth z' ≤ 0 then
      (acc.1, acc.2.1 + 1, acc.2.2.add_points POINTS_PER_KILL)
    else
      (acc.1 ++ [z'], acc.2.1, acc.2.2)
  let zres := w.zombies.foldl zstep ([], 0, pl)
  let bs := (w.bullets.map (bupd dt)).filter (fun b => ¬ bdead b)
  let w1 := { w with
    zombies := zres.1
    bullets := bs
    zombies_killed := w.zombies_killed + zres.2.1 }
  if zres.1.length = 0 ∧ w1.zombies_remaining = 0 then
    (w1.start_next_wave, zres.2.2)
  else
    (w1, zres.2.2)

/-! ### Integer mirror of the ray march

The positions handled by the source are floats (here: ℚ), which Lean's kernel
cannot evaluate through Mathlib's instance chain.  When the start position and
the direction are integral, every quantity in the march stays integral; the
functions below mirror is_wall and the march over ℤ and are proved pointwise
equal to the rational originals, so that concrete runs can be decided. -/

/-- World.is_wall restricted to integer pixel coordinates (x / 64 is integer
floor division, which agrees with ⌊(x : ℚ) / TILE_SIZE⌋). -/
def is_wallZ {Z B : Type} (w : World Z B) (x y : ℤ) : Bool :=
  let gx : ℤ := x / 64
  let gy : ℤ := y / 64
  if gx < 0 ∨ (w.width : ℤ) ≤ gx ∨ gy < 0 ∨ (w.height : ℤ) ≤ gy then
    true
  else
    w.tileAt gx gy == 1

/-- The ray-march loop restricted to integer positions and directions. -/
def castRayLoopZ {Z B : Type} (w : World Z B) (dx dy : ℤ) :
    ℕ → ℤ → ℤ → ℤ → ℤ × ℤ
  | 0, _, _, _ => (1280, 0)
  | fuel + 1, x, y, dist =>
    if dist < 1280 then
      let x' := x + dx * 4
      let y' := y + dy * 4
      let d' := dist + 4
      if is_wallZ w x' y' then
        (d', w.get_wall_at (x' / 64) (y' / 64))
      else
        castRayLoopZ w dx dy fuel x' y' d'
    else
      (1280, 0)

lemma floor_div_tile (x : ℤ) : ⌊(x : ℚ) / TILE_SIZE⌋ = x / 64 := by
  have h64 : TILE_SIZE = ((64 : ℕ) : ℚ) := by
    rw [TILE_SIZE]
    norm_num
  rw [h64]
  exact Rat.floor_intCast_div_natCast x 64

lemma is_wall_intCast {Z B : Type} (w : World Z B) (x y : ℤ) :
    w.is_wall (x : ℚ) (y : ℚ) = is_wallZ w x y := by
  simp only [World.is_wall, is_wallZ, floor_div_tile]

lemma rayLimit_eq : rayLimit = ((1280 : ℤ) : ℚ) := by
  rw [rayLimit, RENDER_DISTANCE, TILE_SIZE]
  norm_num

lemma castRayLoop_intCast {Z B : Type} (w : World Z B) (dx dy : ℤ) :
    ∀ (fuel : ℕ) (x y dist : ℤ),
      castRayLoop w (dx : ℚ) (dy : ℚ) fuel (x : ℚ) (y : ℚ) (dist : ℚ) =
        (((castRayLoopZ w dx dy fuel x y dist).1 : ℚ),
         (castRayLoopZ w dx dy fuel x y dist).2) := by
  intro fuel
  induction fuel with
  | zero =>
    intro x y dist
    simp only [castRayLoop, castRayLoopZ, rayLimit_eq]
  | succ n ih =>
    intro x y dist
    have hlt : ((dist : ℚ) < rayLimit) ↔ (dist < 1280) := by
      rw [rayLimit_eq]
      exact_mod_cast Iff.rfl
    have hx : (x : ℚ) + (dx : ℚ) * STEP_SIZE = ((x + dx * 4 : ℤ) : ℚ) := by
      rw [STEP_SIZE]
      push_cast
      ring
    have hy : (y : ℚ) + (dy : ℚ) * STEP_SIZE = ((y + dy * 4 : ℤ) : ℚ) := by
      rw [STEP_SIZE]
      push_cast
      ring
    have hd : (dist : ℚ) + STEP_SIZE = ((dist + 4 : ℤ) : ℚ) := by
      rw [STEP_SIZE]
      push_cast
      ring
    simp only [castRayLoop, castRayLoopZ, hx, hy, hd, is_wall_intCast,
      floor_div_tile]
    by_cases h1 : dist < 1280
    · simp only [hlt.2 h1, if_pos h1, if_true]
      by_cases h2 : is_wallZ w (x + dx * 4) (y + dy * 4) = true
      · simp [h2]
      · rw [if_neg h2, if_neg h2]
        exact ih _ _ _
    · have h1q : ¬ ((dist : ℚ) < rayLimit) := fun hc => h1 (hlt.1 hc)
      rw [if_neg h1q, if_neg h1, rayLimit_eq]

/-- Concrete runs of _cast_ray from integer data reduce to the integer mirror. -/
lemma cast_ray_intCast {Z B : Type} (w : World Z B) (sx sy dx dy : ℤ) :
    cast_ray w (sx : ℚ) (sy : ℚ) (dx : ℚ) (dy : ℚ) =
      (((castRayLoopZ w dx dy maxRaySteps sx sy 0).1 : ℚ),
       (castRayLoopZ w dx dy maxRaySteps sx sy 0).2) := by
  have h := castRayLoop_intCast w dx dy maxRaySteps sx sy 0
  simpa [cast_ray] using h

/-! ### Map content helpers -/

lemma builtin_01 : ∀ row ∈ builtinMap, ∀ c ∈ row, c = 0 ∨ c = 1 := by decide

lemma getD_01 {l : List ℤ} (h : ∀ c ∈ l, c = 0 ∨ c = 1) (n : ℕ) :
    l.getD n 0 = 0 ∨ l.getD n 0 = 1 := by
  by_cases hn : n < l.length
  · rw [List.getD_eq_getElem _ _ hn]
    exact h _ (List.getElem_mem hn)
  · rw [List.getD_eq_default _ _ (le_of_not_lt hn)]
    exact Or.inl rfl

lemma tileAt_01 {Z B : Type} (gx gy : ℤ) :
    (World.init Z B).tileAt gx gy = 0 ∨ (World.init Z B).tileAt gx gy = 1 := by
  have hrow : ∀ c ∈ (World.init Z B).map_data.getD gy.toNat [], c = 0 ∨ c = 1 := by
    by_cases hg : gy.toNat < (World.init Z B).map_data.length
    · rw [List.getD_eq_getElem _ _ hg]
      exact builtin_01 _ (List.getElem_mem hg)
    · rw [List.getD_eq_default _ _ (le_of_not_lt hg)]
      intro c hc
      cases hc
  exact getD_01 hrow gx.toNat

/-- If the march's wall test succeeds at a point, the tile code the renderer
then reads back from get_wall_at at that point's cell is nonzero (1 out of
bounds, and the in-bounds code which the test found equal to 1). -/
lemma get_wall_at_ne_zero {Z B : Type} {w : World Z B} {x y : ℚ}
    (h : w.is_wall x y = true) :
    w.get_wall_at ⌊x / TILE_SIZE⌋ ⌊y / TILE_SIZE⌋ ≠ 0 := by
  by_cases hb : ⌊x / TILE_SIZE⌋ < 0 ∨ (w.width : ℤ) ≤ ⌊x / TILE_SIZE⌋ ∨
      ⌊y / TILE_SIZE⌋ < 0 ∨ (w.height : ℤ) ≤ ⌊y / TILE_SIZE⌋
  · rw [World.get_wall_at, if_pos hb]
    exact one_ne_zero
  · rw [World.get_wall_at, if_neg hb]
    rw [World.is_wall] at h
    simp only [if_neg hb, beq_iff_eq] at h
    rw [h]
    exact one_ne_zero

/-! ### Claims about the player's weapon and health (C9, C1) -/

/-- C9: shoot() returns true and decrements the ammo by one when the ammo is
positive; with zero ammo it returns false and leaves the whole player state,
the zero ammo counter included, unchanged. -/
theorem shoot_spec (p : Player) :
    (0 < p.ammo → p.shoot = (true, { p with ammo := p.ammo - 1 })) ∧
    (p.ammo = 0 → p.shoot = (false, p)) := by
  constructor
  · intro h
    rw [Player.shoot, if_pos h]
  · intro h
    rw [Player.shoot, if_neg (by omega)]

/-- Witness for shoot_spec: a fresh player (8 rounds) and the same player with
an emptied magazine. -/
theorem shoot_spec_witness :
    (0 < (Player.init 192 192).ammo ∧
      (Player.init 192 192).shoot =
        (true, { Player.init 192 192 with ammo := (Player.init 192 192).ammo - 1 })) ∧
    (({ Player.init 192 192 with ammo := 0 } : Player).ammo = 0 ∧
      ({ Player.init 192 192 with ammo := 0 } : Player).shoot =
        (false, { Player.init 192 192 with ammo := 0 })) := by
  refine ⟨⟨?_, (shoot_spec _).1 ?_⟩, ⟨rfl, (shoot_spec _).2 rfl⟩⟩ <;> decide

/-- C1 counterexample: on a player whose health is already 0 (not greater
than 0), take_damage returns True again, although the claim requires the
down-state edge to fire only on a transition from positive health. -/
theorem take_damage_cex :
    ({ Player.init 0 0 with health := 0 } : Player).health = 0 ∧
    (({ Player.init 0 0 with health := 0 } : Player).take_damage 5).1 = true ∧
    (({ Player.init 0 0 with health := 0 } : Player).take_damage 5).2.health = 0 := by
  refine ⟨rfl, ?_, ?_⟩ <;> decide

/-- C1 amended: take_damage subtracts the damage from health and clamps the
result at 0, and returns True exactly when the post-subtraction health is ≤ 0
— hence also on every later call made while health stays at 0 with
nonnegative damage, not only on the first transition from positive health. -/
theorem take_damage_amended (p : Player) (d : ℤ) :
    (p.take_damage d).2.health = max 0 (p.health - d) ∧
    ((p.take_damage d).1 = true ↔ p.health - d ≤ 0) := by
  rw [Player.take_damage]
  by_cases h : p.health - d ≤ 0
  · rw [if_pos h]
    constructor
    · simp
      omega
    · simp [h]
  · rw [if_neg h]
    constructor
    · simp
      omega
    · simp [h]

/-! ### Claim about wall and bounds queries (C3) -/

/-- C3: is_wall floor-divides both continuous coordinates by the tile size,
reports a wall for every index outside [0, width) × [0, height) (the built-in
map is 20 × 15), and otherwise reports a wall exactly when the stored tile
code is nonzero (the built-in map stores only the codes 0 and 1, so the
source's equality test against 1 coincides with a nonzero test); get_wall_at
returns the sentinel code 1 out of bounds and the raw stored code otherwise. -/
theorem is_wall_bounds_and_code :
    (World.init Unit Unit).width = 20 ∧ (World.init Unit Unit).height = 15 ∧
    (∀ x y : ℚ,
      (World.init Unit Unit).is_wall x y = true ↔
        (⌊x / TILE_SIZE⌋ < 0 ∨ ((World.init Unit Unit).width : ℤ) ≤ ⌊x / TILE_SIZE⌋ ∨
         ⌊y / TILE_SIZE⌋ < 0 ∨ ((World.init Unit Unit).height : ℤ) ≤ ⌊y / TILE_SIZE⌋ ∨
         (World.init Unit Unit).tileAt ⌊x / TILE_SIZE⌋ ⌊y / TILE_SIZE⌋ ≠ 0)) ∧
    (∀ gx gy : ℤ,
      (World.init Unit Unit).get_wall_at gx gy =
        if gx < 0 ∨ ((World.init Unit Unit).width : ℤ) ≤ gx ∨ gy < 0 ∨
            ((World.init Unit Unit).height : ℤ) ≤ gy then 1
        else (World.init Unit Unit).tileAt gx gy) := by
  refine ⟨rfl, rfl, ?_, fun gx gy => rfl⟩
  intro x y
  rw [World.is_wall]
  by_cases hb : ⌊x / TILE_SIZE⌋ < 0 ∨ ((World.init Unit Unit).width : ℤ) ≤ ⌊x / TILE_SIZE⌋ ∨
      ⌊y / TILE_SIZE⌋ < 0 ∨ ((World.init Unit Unit).height : ℤ) ≤ ⌊y / TILE_SIZE⌋
  · simp only [if_pos hb]
    constructor
    · intro _
      tauto
    · intro _
      trivial
  · simp only [if_neg hb, beq_iff_eq]
    rcases tileAt_01 (Z := Unit) (B := Unit) ⌊x / TILE_SIZE⌋ ⌊y / TILE_SIZE⌋ with h0 | h1
    · rw [h0]
      simp only [zero_ne_one, ne_eq, not_true_eq_false, or_false]
      tauto
    · rw [h1]
      simp only [ne_eq, one_ne_zero, not_false_eq_true, or_true, iff_true]

/-! ### Claim about axis-separated collision (C4) -/

/-- C4: with a nonzero movement direction, update accepts the X displacement
first, exactly when the candidate X paired with the current Y is not a wall;
the Y displacement is then tested with the possibly already updated X and
accepted exactly when that point is not a wall.  On the built-in map, a player
at x = 1215, y = 192 (tile (18,3), wall at (19,3) to the east, open (18,4) to
the south) moving south-east for one 1/60 s tick keeps x and moves the full
southward displacement. -/
theorem update_axis_separated :
    (∀ (Z B : Type) (w : World Z B) (p : Player) (dt mx my : ℚ),
      (mx ≠ 0 ∨ my ≠ 0) →
      ((p.update dt mx my w).x =
        if w.is_wall (p.x + mx * p.speed * dt * TILE_SIZE) p.y then p.x
        else p.x + mx * p.speed * dt * TILE_SIZE) ∧
      ((p.update dt mx my w).y =
        if w.is_wall (p.update dt mx my w).x (p.y + my * p.speed * dt * TILE_SIZE) then p.y
        else p.y + my * p.speed * dt * TILE_SIZE)) ∧
    ((World.init Unit Unit).tileAt 19 3 = 1 ∧
     (World.init Unit Unit).tileAt 18 3 = 0 ∧
     (World.init Unit Unit).tileAt 18 4 = 0 ∧
     ((Player.init 1215 192).update (1/60) 1 1 (World.init Unit Unit)).x = 1215 ∧
     ((Player.init 1215 192).update (1/60) 1 1 (World.init Unit Unit)).y =
       192 + 1 * PLAYER_SPEED * (1/60) * TILE_SIZE) := by
  constructor
  · intro Z B w p dt mx my hmv
    simp only [Player.update, if_pos hmv]
    split_ifs with h1 h2 h2 <;> simp_all
  · have hwall : (World.init Unit Unit).is_wall
        ((1215 : ℚ) + 1 * PLAYER_SPEED * (1/60) * TILE_SIZE) 192 = true := by
      rw [World.is_wall]
      have hgx : ⌊((1215 : ℚ) + 1 * PLAYER_SPEED * (1/60) * TILE_SIZE) / TILE_SIZE⌋ = 19 := by
        rw [PLAYER_SPEED, TILE_SIZE]
        norm_num
      have hgy : ⌊(192 : ℚ) / TILE_SIZE⌋ = 3 := by
        rw [TILE_SIZE]
        norm_num
      simp only [hgx, hgy]
      rw [if_neg (by decide)]
      decide
    have hopen : (World.init Unit Unit).is_wall (1215 : ℚ)
        ((192 : ℚ) + 1 * PLAYER_SPEED * (1/60) * TILE_SIZE) = false := by
      rw [World.is_wall]
      have hgx : ⌊(1215 : ℚ) / TILE_SIZE⌋ = 18 := by
        rw [TILE_SIZE]
        norm_num
      have hgy : ⌊((192 : ℚ) + 1 * PLAYER_SPEED * (1/60) * TILE_SIZE) / TILE_SIZE⌋ = 3 := by
        rw [PLAYER_SPEED, TILE_SIZE]
        norm_num
      simp only [hgx, hgy]
      rw [if_neg (by decide)]
      decide
    refine ⟨by decide, by decide, by decide, ?_, ?_⟩ <;>
      · simp only [Player.update]
        rw [if_pos (by norm_num)]
        have hx : (Player.init 1215 192).x = 1215 := rfl
        have hy : (Player.init 1215 192).y = 192 := rfl
        have hs : (Player.init 1215 192).speed = PLAYER_SPEED := rfl
        simp only [hx, hy, hs, hwall, if_true]
        simp only [hopen, Bool.false_eq_true, if_false]

/-- Witness for update_axis_separated: a pure east move from the spawn tile. -/
theorem update_axis_separated_witness :
    ((1 : ℚ) ≠ 0 ∨ (0 : ℚ) ≠ 0) ∧
    (((Player.init 192 192).update 1 1 0 (World.init Unit Unit)).x =
      if (World.init Unit Unit).is_wall
          ((Player.init 192 192).x + 1 * (Player.init 192 192).speed * 1 * TILE_SIZE)
          (Player.init 192 192).y then
        (Player.init 192 192).x
      else
        (Player.init 192 192).x + 1 * (Player.init 192 192).speed * 1 * TILE_SIZE) :=
  ⟨Or.inl one_ne_zero,
   (update_axis_separated.1 Unit Unit (World.init Unit Unit) (Player.init 192 192)
     1 1 0 (Or.inl one_ne_zero)).1⟩

/-! ### Claim about rotation normalization (C5) -/

lemma norm_up_of_nonneg (p a : ℚ) (h : 0 ≤ a) : norm_up p a = a := by
  rw [norm_up, dif_neg]
  rintro ⟨-, ha⟩
  linarith

lemma norm_up_spec (p : ℚ) (hp : 0 < p) :
    ∀ (n : ℕ) (a : ℚ), (⌈-a / p⌉).toNat ≤ n →
      ∃ k : ℤ, norm_up p a = a + p * k ∧ 0 ≤ norm_up p a := by
  intro n
  induction n with
  | zero =>
    intro a hn
    have h0 : 0 ≤ a := by
      by_contra hneg
      push_neg at hneg
      have hpos : (0 : ℚ) < -a / p := div_pos (by linarith) hp
      have := Int.ceil_pos.2 hpos
      omega
    exact ⟨0, by rw [norm_up_of_nonneg p a h0]; ring, by rw [norm_up_of_nonneg p a h0]; exact h0⟩
  | succ n ih =>
    intro a hn
    by_cases h0 : 0 ≤ a
    · exact ⟨0, by rw [norm_up_of_nonneg p a h0]; ring, by rw [norm_up_of_nonneg p a h0]; exact h0⟩
    · push_neg at h0
      have hstep : norm_up p a = norm_up p (a + p) := by
        rw [norm_up, dif_pos ⟨hp, h0⟩]
      have hkey : -(a + p) / p = -a / p - 1 := by
        field_simp
        ring
      have hceil : ⌈-(a + p) / p⌉ = ⌈-a / p⌉ - 1 := by
        rw [hkey]
        exact_mod_cast Int.ceil_sub_int (-a / p) 1
      have hmeas : (⌈-(a + p) / p⌉).toNat ≤ n := by
        have hpos : (0 : ℚ) < -a / p := div_pos (by linarith) hp
        have := Int.ceil_pos.2 hpos
        omega
      obtain ⟨k, hk, hk0⟩ := ih (a + p) hmeas
      exact ⟨k + 1, by rw [hstep, hk]; push_cast; ring, by rw [hstep]; exact hk0⟩

lemma norm_down_spec (p : ℚ) (hp : 0 < p) :
    ∀ (n : ℕ) (a : ℚ), 0 ≤ a → (⌊a / p⌋).toNat ≤ n →
      ∃ k : ℤ, norm_down p a = a - p * k ∧
        0 ≤ norm_down p a ∧ norm_down p a < p := by
  intro n
  induction n with
  | zero =>
    intro a ha hn
    have hap : a < p := by
      by_contra hge
      push_neg at hge
      have h1 : (1 : ℚ) ≤ a / p := (one_le_div hp).2 hge
      have := Int.le_floor.2 (by exact_mod_cast h1 : ((1 : ℤ) : ℚ) ≤ a / p)
      omega
    refine ⟨0, ?_, ?_, ?_⟩ <;> rw [norm_down, dif_neg (by rintro ⟨-, hge⟩; linarith)]
    · ring
    · exact ha
    · exact hap
  | succ n ih =>
    intro a ha hn
    by_cases hge : p ≤ a
    · have hstep : norm_down p a = norm_down p (a - p) := by
        rw [norm_down, dif_pos ⟨hp, hge⟩]
      have hkey : (a - p) / p = a / p - 1 := by
        field_simp
      have hfloor : ⌊(a - p) / p⌋ = ⌊a / p⌋ - 1 := by
        rw [hkey]
        exact_mod_cast Int.floor_sub_int (a / p) 1
      have hmeas : (⌊(a - p) / p⌋).toNat ≤ n := by
        have h1 : (1 : ℚ) ≤ a / p := (one_le_div hp).2 hge
        have := Int.le_floor.2 (by exact_mod_cast h1 : ((1 : ℤ) : ℚ) ≤ a / p)
        omega
      obtain ⟨k, hk, hk0, hkp⟩ := ih (a - p) (by linarith) hmeas
      exact ⟨k + 1, by rw [hstep, hk]; push_cast; ring, by rw [hstep]; exact hk0,
        by rw [hstep]; exact hkp⟩
    · push_neg at hge
      refine ⟨0, ?_, ?_, ?_⟩ <;> rw [norm_down, dif_neg (by rintro ⟨-, h⟩; linarith)]
      · ring
      · exact ha
      · exact hge

/-- A value of [0, p) congruent to x modulo p is x reduced by p·⌊x/p⌋. -/
lemma mod_repr_unique (p x b : ℚ) (hp : 0 < p) (hb0 : 0 ≤ b) (hbp : b < p)
    (k : ℤ) (hk : b = x + p * k) : b = x - p * ⌊x / p⌋ := by
  have hx : x = b - p * k := by linarith
  have hq : x / p = b / p - (k : ℚ) := by
    rw [hx]
    field_simp
  have hfb : ⌊b / p⌋ = 0 :=
    Int.floor_eq_zero_iff.2 ⟨div_nonneg hb0 hp.le, (div_lt_one hp).2 hbp⟩
  have hfx : ⌊x / p⌋ = -k := by
    rw [hq]
    rw [show (k : ℚ) = ((k : ℤ) : ℚ) from rfl]
    rw [Int.floor_sub_int, hfb]
    omega
  rw [hfx, hx]
  push_cast
  ring

/-- C5: rotate adds the delta to the heading and the two normalization loops
terminate, leaving heading + delta reduced modulo the period into [0, period);
a delta of exactly one period leaves the normalized heading unchanged.  The
period parameter twoPi stands for the source's positive float constant
2 * math.pi. -/
theorem rotate_normalizes (twoPi : ℚ) (hp : 0 < twoPi) (p : Player) (d : ℚ) :
    0 ≤ (p.rotate twoPi d).angle ∧ (p.rotate twoPi d).angle < twoPi ∧
    (p.rotate twoPi d).angle = (p.angle + d) - twoPi * ⌊(p.angle + d) / twoPi⌋ ∧
    (p.rotate twoPi twoPi).angle = (p.rotate twoPi 0).angle := by
  have main : ∀ δ : ℚ, 0 ≤ (p.rotate twoPi δ).angle ∧ (p.rotate twoPi δ).angle < twoPi ∧
      (p.rotate twoPi δ).angle = (p.angle + δ) - twoPi * ⌊(p.angle + δ) / twoPi⌋ := by
    intro δ
    obtain ⟨k1, hk1, hk1n⟩ :=
      norm_up_spec twoPi hp (⌈-(p.angle + δ) / twoPi⌉).toNat (p.angle + δ) le_rfl
    obtain ⟨k2, hk2, hk2n, hk2p⟩ :=
      norm_down_spec twoPi hp (⌊norm_up twoPi (p.angle + δ) / twoPi⌋).toNat
        (norm_up twoPi (p.angle + δ)) hk1n le_rfl
    have hval : (p.rotate twoPi δ).angle =
        (p.angle + δ) + twoPi * ((k1 - k2 : ℤ) : ℚ) := by
      show norm_down twoPi (norm_up twoPi (p.angle + δ)) = _
      rw [hk2, hk1]
      push_cast
      ring
    have h0 : 0 ≤ (p.rotate twoPi δ).angle := hk2n
    have h1 : (p.rotate twoPi δ).angle < twoPi := hk2p
    refine ⟨h0, h1, ?_⟩
    exact mod_repr_unique twoPi (p.angle + δ) _ hp h0 h1 (k1 - k2) hval
  obtain ⟨h0, h1, h2⟩ := main d
  refine ⟨h0, h1, h2, ?_⟩
  rw [(main twoPi).2.2, (main 0).2.2]
  have hq : (p.angle + twoPi) / twoPi = p.angle / twoPi + ((1 : ℤ) : ℚ) := by
    field_simp
  rw [hq, Int.floor_add_int]
  push_cast
  ring

/-- Witness for rotate_normalizes at period 7, heading 3, delta 9. -/
theorem rotate_normalizes_witness :
    (0 : ℚ) < 7 ∧
    (0 ≤ ((Player.init 0 0).rotate 7 9).angle ∧ ((Player.init 0 0).rotate 7 9).angle < 7 ∧
     ((Player.init 0 0).rotate 7 9).angle =
       ((Player.init 0 0).angle + 9) - 7 * ⌊((Player.init 0 0).angle + 9) / 7⌋ ∧
     ((Player.init 0 0).rotate 7 7).angle = ((Player.init 0 0).rotate 7 0).angle) :=
  ⟨by norm_num, rotate_normalizes 7 (by norm_num) (Player.init 0 0) 9⟩

/-! ### Claim about wave advancement (C6) -/

/-- C6: an update call on a world with no active zombies and nothing left to
spawn increments the wave number and sets the quota of the new wave; the quota
is a strictly increasing function of the wave number, so the world that starts
at wave 1 with empty lists moves to wave 2 with quota 12 > 6, wave 1's quota.
The statement is universal in the per-actor update parameters (the actor
classes are absent from the repository), which an empty list never invokes. -/
theorem wave_advance :
    (∀ (Z B : Type) (zupd : ℚ → Player → Z → Z) (zhealth : Z → ℤ)
        (bupd : ℚ → B → B) (bdead : B → Bool) (dt : ℚ) (w : World Z B) (pl : Player),
      w.zombies = [] → w.zombies_remaining = 0 →
      (World.update zupd zhealth bupd bdead dt w pl).1.wave = w.wave + 1 ∧
      (World.update zupd zhealth bupd bdead dt w pl).1.zombies_remaining =
        next_wave_quota (w.wave + 1)) ∧
    (∀ a b : ℤ, a < b → next_wave_quota a < next_wave_quota b) ∧
    ((World.update (fun _ _ z => z) (fun _ => 0) (fun _ b => b) (fun _ => false) 1
        (World.init Unit Unit) (Player.init 192 192)).1.wave = 2 ∧
     (World.update (fun _ _ z => z) (fun _ => 0) (fun _ b => b) (fun _ => false) 1
        (World.init Unit Unit) (Player.init 192 192)).1.zombies_remaining = 12 ∧
     next_wave_quota (World.init Unit Unit).wave <
       (World.update (fun _ _ z => z) (fun _ => 0) (fun _ b => b) (fun _ => false) 1
          (World.init Unit Unit) (Player.init 192 192)).1.zombies_remaining) := by
  refine ⟨?_, ?_, ?_, ?_, ?_⟩
  · intro Z B zupd zhealth bupd bdead dt w pl hz hr
    simp [World.update, hz, hr, World.start_next_wave]
  · intro a b h
    rw [next_wave_quota, next_wave_quota]
    omega
  · decide
  · decide
  · decide

/-- Witness for wave_advance: the initial world itself has an empty zombie
list and a zero pending count. -/
theorem wave_advance_witness :
    (World.init Unit Unit).zombies = [] ∧ (World.init Unit Unit).zombies_remaining = 0 ∧
    ((World.update (fun _ _ z => z) (fun _ => 0) (fun _ b => b) (fun _ => false) 1
        (World.init Unit Unit) (Player.init 0 0)).1.wave = (World.init Unit Unit).wave + 1 ∧
     (World.update (fun _ _ z => z) (fun _ => 0) (fun _ b => b) (fun _ => false) 1
        (World.init Unit Unit) (Player.init 0 0)).1.zombies_remaining =
       next_wave_quota ((World.init Unit Unit).wave + 1)) :=
  ⟨rfl, rfl,
   wave_advance.1 Unit Unit (fun _ _ z => z) (fun _ => 0) (fun _ b => b) (fun _ => false) 1
     (World.init Unit Unit) (Player.init 0 0) rfl rfl⟩

/-! ### Claim about the reported distance being positive (C10) -/

lemma castRayLoop_lower {Z B : Type} (w : World Z B) (dx dy : ℚ) :
    ∀ (fuel : ℕ) (x y dist : ℚ),
      min (dist + STEP_SIZE) rayLimit ≤ (castRayLoop w dx dy fuel x y dist).1 := by
  intro fuel
  induction fuel with
  | zero =>
    intro x y dist
    exact min_le_right _ _
  | succ n ih =>
    intro x y dist
    rw [castRayLoop]
    by_cases h1 : dist < rayLimit
    · rw [if_pos h1]
      by_cases h2 : w.is_wall (x + dx * STEP_SIZE) (y + dy * STEP_SIZE) = true
      · rw [if_pos h2]
        exact min_le_left _ _
      · rw [if_neg h2]
        refine le_trans ?_ (ih _ _ _)
        have hstep : (0 : ℚ) < STEP_SIZE := by
          rw [STEP_SIZE]
          norm_num
        exact min_le_min (by linarith) le_rfl
    · rw [if_neg h1]
      exact min_le_right _ _

/-- C10: the march advances by one positive step before its first wall test
and accumulates only positive steps, so every reported distance is at least
the step size, hence positive, and the renderer's non-positive-distance
fallback branch of the height computation is never the one taken. -/
theorem cast_ray_distance_positive {Z B : Type} (w : World Z B) (sx sy dx dy : ℚ) :
    STEP_SIZE ≤ (cast_ray w sx sy dx dy).1 ∧
    0 < (cast_ray w sx sy dx dy).1 ∧
    wall_height (cast_ray w sx sy dx dy).1 =
      min (TILE_SIZE / (cast_ray w sx sy dx dy).1 * SCREEN_HEIGHT) SCREEN_HEIGHT := by
  have hlow := castRayLoop_lower w dx dy maxRaySteps sx sy 0
  have hmin : STEP_SIZE ≤ min ((0 : ℚ) + STEP_SIZE) rayLimit := by
    rw [STEP_SIZE, rayLimit, RENDER_DISTANCE, TILE_SIZE]
    norm_num
  have h4 : STEP_SIZE ≤ (cast_ray w sx sy dx dy).1 := le_trans hmin hlow
  have hpos : 0 < (cast_ray w sx sy dx dy).1 := by
    have : (0 : ℚ) < STEP_SIZE := by
      rw [STEP_SIZE]
      norm_num
    linarith
  exact ⟨h4, hpos, by rw [wall_height, if_pos hpos]⟩

/-! ### Claim about the bounded ray march (C7) -/

lemma castRayLoop_char {Z B : Type} (w : World Z B) (dx dy : ℚ) :
    ∀ (fuel : ℕ) (x y dist : ℚ),
      castRayLoop w dx dy fuel x y dist = (rayLimit, 0) ∨
      ∃ j : ℕ, 1 ≤ j ∧ j ≤ fuel ∧
        (castRayLoop w dx dy fuel x y dist).1 = dist + STEP_SIZE * j ∧
        dist + STEP_SIZE * ((j - 1 : ℕ) : ℚ) < rayLimit ∧
        w.is_wall (x + dx * (STEP_SIZE * j)) (y + dy * (STEP_SIZE * j)) = true ∧
        (castRayLoop w dx dy fuel x y dist).2 =
          w.get_wall_at ⌊(x + dx * (STEP_SIZE * j)) / TILE_SIZE⌋
            ⌊(y + dy * (STEP_SIZE * j)) / TILE_SIZE⌋ := by
  intro fuel
  induction fuel with
  | zero =>
    intro x y dist
    exact Or.inl rfl
  | succ n ih =>
    intro x y dist
    rw [castRayLoop]
    by_cases h1 : dist < rayLimit
    · rw [if_pos h1]
      by_cases h2 : w.is_wall (x + dx * STEP_SIZE) (y + dy * STEP_SIZE) = true
      · rw [if_pos h2]
        refine Or.inr ⟨1, le_rfl, by omega, ?_, ?_, ?_, ?_⟩
        · push_cast
          ring
        · simpa using h1
        · have hx1 : x + dx * (STEP_SIZE * ((1 : ℕ) : ℚ)) = x + dx * STEP_SIZE := by
            push_cast
            ring
          have hy1 : y + dy * (STEP_SIZE * ((1 : ℕ) : ℚ)) = y + dy * STEP_SIZE := by
            push_cast
            ring
          rw [hx1, hy1]
          exact h2
        · have hx1 : x + dx * (STEP_SIZE * ((1 : ℕ) : ℚ)) = x + dx * STEP_SIZE := by
            push_cast
            ring
          have hy1 : y + dy * (STEP_SIZE * ((1 : ℕ) : ℚ)) = y + dy * STEP_SIZE := by
            push_cast
            ring
          rw [hx1, hy1]
      · rw [if_neg h2]
        rcases ih (x + dx * STEP_SIZE) (y + dy * STEP_SIZE) (dist + STEP_SIZE) with h | h
        · exact Or.inl h
        · obtain ⟨j, hj1, hjn, hd, hlt, hw, ht⟩ := h
          refine Or.inr ⟨j + 1, by omega, by omega, ?_, ?_, ?_, ?_⟩
          · rw [hd]
            push_cast
            ring
          · have : ((j + 1 - 1 : ℕ) : ℚ) = ((j - 1 : ℕ) : ℚ) + 1 := by
              have hj : (j + 1 - 1 : ℕ) = (j - 1 : ℕ) + 1 := by omega
              rw [hj]
              push_cast
              ring
            rw [this]
            have hstep : (0 : ℚ) ≤ STEP_SIZE := by
              rw [STEP_SIZE]
              norm_num
            nlinarith [hlt]
          · have hx1 : x + dx * (STEP_SIZE * ((j + 1 : ℕ) : ℚ)) =
                (x + dx * STEP_SIZE) + dx * (STEP_SIZE * (j : ℚ)) := by
              push_cast
              ring
            have hy1 : y + dy * (STEP_SIZE * ((j + 1 : ℕ) : ℚ)) =
                (y + dy * STEP_SIZE) + dy * (STEP_SIZE * (j : ℚ)) := by
              push_cast
              ring
            rw [hx1, hy1]
            exact hw
          · have hx1 : x + dx * (STEP_SIZE * ((j + 1 : ℕ) : ℚ)) =
                (x + dx * STEP_SIZE) + dx * (STEP_SIZE * (j : ℚ)) := by
              push_cast
              ring
            have hy1 : y + dy * (STEP_SIZE * ((j + 1 : ℕ) : ℚ)) =
                (y + dy * STEP_SIZE) + dy * (STEP_SIZE * (j : ℚ)) := by
              push_cast
              ring
            rw [hx1, hy1]
            exact ht
    · rw [if_neg h1]
      exact Or.inl rfl

/-- C7: the march runs at most rayLimit / STEP_SIZE = 320 fixed-size steps
(maxRaySteps, the fuel of the loop); the reported distance is a whole number
of steps, at most the render-distance limit; a run that found a wall reports
the accumulated distance to a point the wall test accepts together with the
tile code get_wall_at reads at that point's cell (a nonzero code), and a run
that found none reports exactly the limit with the no-wall code 0. -/
theorem cast_ray_bounded_march {Z B : Type} (w : World Z B) (sx sy dx dy : ℚ) :
    (maxRaySteps : ℚ) * STEP_SIZE = rayLimit ∧
    (∃ k : ℕ, k ≤ maxRaySteps ∧ (cast_ray w sx sy dx dy).1 = STEP_SIZE * k) ∧
    (cast_ray w sx sy dx dy).1 ≤ rayLimit ∧
    (((cast_ray w sx sy dx dy).2 = 0 ∧ (cast_ray w sx sy dx dy).1 = rayLimit) ∨
     ((cast_ray w sx sy dx dy).2 ≠ 0 ∧
      w.is_wall (sx + dx * (cast_ray w sx sy dx dy).1)
        (sy + dy * (cast_ray w sx sy dx dy).1) = true ∧
      (cast_ray w sx sy dx dy).2 =
        w.get_wall_at ⌊(sx + dx * (cast_ray w sx sy dx dy).1) / TILE_SIZE⌋
          ⌊(sy + dy * (cast_ray w sx sy dx dy).1) / TILE_SIZE⌋)) := by
  have hconst : (maxRaySteps : ℚ) * STEP_SIZE = rayLimit := by
    rw [maxRaySteps, STEP_SIZE, rayLimit, RENDER_DISTANCE, TILE_SIZE]
    norm_num
  rcases castRayLoop_char w dx dy maxRaySteps sx sy 0 with h | h
  · have h1 : (cast_ray w sx sy dx dy).1 = rayLimit := by
      rw [cast_ray, h]
    have h2 : (cast_ray w sx sy dx dy).2 = 0 := by
      rw [cast_ray, h]
    refine ⟨hconst, ⟨maxRaySteps, le_rfl, ?_⟩, le_of_eq h1, Or.inl ⟨h2, h1⟩⟩
    rw [h1, ← hconst]
    ring
  · obtain ⟨j, hj1, hjn, hd, hlt, hw, ht⟩ := h
    rw [cast_ray] at *
    have hstep : (0 : ℚ) < STEP_SIZE := by
      rw [STEP_SIZE]
      norm_num
    have hj' : ((j - 1 : ℕ) : ℚ) = (j : ℚ) - 1 := by
      have : ((j - 1 : ℕ) : ℚ) + 1 = (j : ℚ) := by
        have hj : (j - 1 : ℕ) + 1 = j := by omega
        exact_mod_cast congrArg (Nat.cast : ℕ → ℚ) hj
      linarith
    have hdle : (castRayLoopZ w 0 0 0 0 0 0).1 = (castRayLoopZ w 0 0 0 0 0 0).1 := rfl
    have hle : (castRayLoop w dx dy maxRaySteps sx sy 0).1 ≤ rayLimit := by
      rw [hd]
      have : STEP_SIZE * ((j : ℚ) - 1) < rayLimit := by
        rw [← hj']
        simpa using hlt
      calc 0 + STEP_SIZE * (j : ℚ) = STEP_SIZE * ((j : ℚ) - 1) + STEP_SIZE := by ring
        _ ≤ rayLimit := by
          rw [← hconst] at this ⊢
          have hs4 : STEP_SIZE = (4 : ℚ) := by
            rw [STEP_SIZE]
          have hm : (maxRaySteps : ℚ) = 320 := by
            rw [maxRaySteps]
            norm_num
          rw [hs4, hm] at this ⊢
          have hjq : (j : ℚ) ≤ 320 := by
            have : (j : ℚ) - 1 < 320 := by linarith
            have hj320 : j ≤ 320 := by
              by_contra hc
              push_neg at hc
              have : (321 : ℚ) ≤ (j : ℚ) := by exact_mod_cast hc
              linarith
            exact_mod_cast hj320
          linarith
    have hne : (castRayLoop w dx dy maxRaySteps sx sy 0).2 ≠ 0 := by
      rw [ht]
      exact get_wall_at_ne_zero hw
    refine ⟨hconst, ⟨j, by omega, by simpa using hd⟩, hle, Or.inr ⟨hne, ?_, ?_⟩⟩
    · rw [hd]
      have hx : sx + dx * (0 + STEP_SIZE * (j : ℚ)) = sx + dx * (STEP_SIZE * (j : ℚ)) := by
        ring
      have hy : sy + dy * (0 + STEP_SIZE * (j : ℚ)) = sy + dy * (STEP_SIZE * (j : ℚ)) := by
        ring
      rw [hx, hy]
      exact hw
    · rw [hd]
      have hx : sx + dx * (0 + STEP_SIZE * (j : ℚ)) = sx + dx * (STEP_SIZE * (j : ℚ)) := by
        ring
      have hy : sy + dy * (0 + STEP_SIZE * (j : ℚ)) = sy + dy * (STEP_SIZE * (j : ℚ)) := by
        ring
      rw [hx, hy]
      exact ht

/-! ### Concrete eastward ray on the built-in map (used by C8 and C2) -/

set_option maxRecDepth 10000 in
lemma east_rayZ_eval :
    castRayLoopZ (World.init Unit Unit) 1 0 maxRaySteps 192 192 0 = (1024, 1) := by
  decide

lemma east_ray_eval :
    cast_ray (World.init Unit Unit) (3 * TILE_SIZE) (3 * TILE_SIZE) 1 0 = (1024, 1) := by
  have hq := cast_ray_intCast (World.init Unit Unit) 192 192 1 0
  rw [east_rayZ_eval] at hq
  have h1 : ((192 : ℤ) : ℚ) = 3 * TILE_SIZE := by
    rw [TILE_SIZE]
    norm_num
  have h2 : ((1 : ℤ) : ℚ) = 1 := by norm_num
  have h3 : ((0 : ℤ) : ℚ) = 0 := by norm_num
  rw [h1, h2, h3] at hq
  have h4 : (((1024, 1) : ℤ × ℤ).1 : ℚ) = 1024 := by norm_num
  rw [h4] at hq
  exact hq

/-! ### Claim about the east-border scenario and height projection (C8) -/

/-- C8: on the built-in 20 × 15 bordered map a ray cast from the spawn point
(3 tiles, 3 tiles) with heading 0 — direction (cos 0, sin 0) = (1, 0), straight
at the east border — reports hit distance (20 − 1 − 3) · tileSize exactly
(hence within one step size) with wall code 1, and for every positive distance
the projected strip height is (tileSize / distance) · screenHeight capped at
screenHeight; at this hit distance the cap is not reached. -/
theorem east_ray_scenario :
    cast_ray (World.init Unit Unit) (3 * TILE_SIZE) (3 * TILE_SIZE) 1 0 =
      ((20 - 1 - 3) * TILE_SIZE, 1) ∧
    |(cast_ray (World.init Unit Unit) (3 * TILE_SIZE) (3 * TILE_SIZE) 1 0).1 -
      (20 - 1 - 3) * TILE_SIZE| ≤ STEP_SIZE ∧
    (∀ d : ℚ, 0 < d →
      wall_height d = min (TILE_SIZE / d * SCREEN_HEIGHT) SCREEN_HEIGHT) ∧
    wall_height ((20 - 1 - 3) * TILE_SIZE) =
      TILE_SIZE / ((20 - 1 - 3) * TILE_SIZE) * SCREEN_HEIGHT := by
  have hd : ((20 - 1 - 3) * TILE_SIZE : ℚ) = 1024 := by
    rw [TILE_SIZE]
    norm_num
  refine ⟨?_, ?_, ?_, ?_⟩
  · rw [east_ray_eval, hd]
  · rw [east_ray_eval, hd, STEP_SIZE]
    norm_num
  · intro d hdp
    rw [wall_height, if_pos hdp]
  · rw [hd, wall_height, if_pos (by norm_num)]
    apply min_eq_left
    rw [TILE_SIZE, SCREEN_HEIGHT]
    norm_num

/-- Witness for east_ray_scenario's quantified height clause, at distance 2. -/
theorem east_ray_scenario_witness :
    (0 : ℚ) < 2 ∧ wall_height 2 = min (TILE_SIZE / 2 * SCREEN_HEIGHT) SCREEN_HEIGHT :=
  ⟨by norm_num, east_ray_scenario.2.2.1 2 (by norm_num)⟩

/-! ### Claims about distance shading (C2) -/

/-- C2 counterexample: the eastward spawn ray reports distance 1024 (a pixel
count: 16 tile edges); the source shades GRAY with max(0.1, 1 − 1024/20),
giving (12, 12, 12), while the claim's same-world-unit reading — the reported
distance converted to tile edges before the falloff — gives
max(0.1, 1 − 16/20) = 0.2 and (25, 25, 25).  The two disagree, so the claim's
unit statement is false of the code. -/
theorem shading_units_cex :
    (cast_ray (World.init Unit Unit) (3 * TILE_SIZE) (3 * TILE_SIZE) 1 0).1 = 1024 ∧
    shaded_color (wall_color_of 1) 1024 = (12, 12, 12) ∧
    spec_shaded_color (wall_color_of 1) 1024 = (25, 25, 25) ∧
    shaded_color (wall_color_of 1) 1024 ≠ spec_shaded_color (wall_color_of 1) 1024 := by
  have hc : wall_color_of 1 = GRAY := by
    rw [wall_color_of, if_pos rfl]
  have hcode : shaded_color (wall_color_of 1) 1024 = (12, 12, 12) := by
    have hf : shade_factor 1024 = 1 / 10 := by
      rw [shade_factor, RENDER_DISTANCE]
      exact max_eq_left (by norm_num)
    rw [shaded_color, hf, hc, GRAY]
    have hch : pyInt ((128 : ℤ) * (1 / 10 : ℚ)) = 12 := by
      rw [pyInt, if_pos (by norm_num)]
      norm_num
    rw [show (((128, 128, 128) : ℤ × ℤ × ℤ).1 : ℚ) = ((128 : ℤ) : ℚ) from rfl]
    rw [show (((128, 128, 128) : ℤ × ℤ × ℤ).2.1 : ℚ) = ((128 : ℤ) : ℚ) from rfl]
    rw [show (((128, 128, 128) : ℤ × ℤ × ℤ).2.2 : ℚ) = ((128 : ℤ) : ℚ) from rfl]
    rw [hch]
  have hspec : spec_shaded_color (wall_color_of 1) 1024 = (25, 25, 25) := by
    have hf : max (1 / 10 : ℚ) (1 - 1024 / TILE_SIZE / RENDER_DISTANCE) = 1 / 5 := by
      rw [TILE_SIZE, RENDER_DISTANCE]
      rw [max_eq_right (by norm_num)]
      norm_num
    rw [spec_shaded_color, hf, hc, GRAY]
    have hch : pyInt ((128 : ℤ) * (1 / 5 : ℚ)) = 25 := by
      rw [pyInt, if_pos (by norm_num)]
      norm_num
    rw [show (((128, 128, 128) : ℤ × ℤ × ℤ).1 : ℚ) = ((128 : ℤ) : ℚ) from rfl]
    rw [show (((128, 128, 128) : ℤ × ℤ × ℤ).2.1 : ℚ) = ((128 : ℤ) : ℚ) from rfl]
    rw [show (((128, 128, 128) : ℤ × ℤ × ℤ).2.2 : ℚ) = ((128 : ℤ) : ℚ) from rfl]
    rw [hch]
  refine ⟨?_, hcode, hspec, ?_⟩
  · rw [east_ray_eval]
  · rw [hcode, hspec]
    decide

lemma wall_color_mem (t : ℤ) : wall_color_of t = GRAY ∨ wall_color_of t = DARK_GRAY := by
  rw [wall_color_of]
  split_ifs <;> simp

lemma pyInt_mul_channel (c : ℤ) (f : ℚ) (hc0 : 0 ≤ c) (hc1 : c ≤ 255)
    (hf0 : 0 ≤ f) (hf1 : f ≤ 1) :
    pyInt ((c : ℚ) * f) = ⌊(c : ℚ) * f⌋ ∧
    0 ≤ pyInt ((c : ℚ) * f) ∧ pyInt ((c : ℚ) * f) ≤ 255 := by
  have hprod0 : (0 : ℚ) ≤ (c : ℚ) * f := mul_nonneg (by exact_mod_cast hc0) hf0
  have heq : pyInt ((c : ℚ) * f) = ⌊(c : ℚ) * f⌋ := by
    rw [pyInt, if_pos hprod0]
  have hle : (c : ℚ) * f ≤ 255 := by
    have hm : (c : ℚ) * f ≤ (c : ℚ) * 1 :=
      mul_le_mul_of_nonneg_left hf1 (by exact_mod_cast hc0)
    have hc : (c : ℚ) ≤ 255 := by exact_mod_cast hc1
    linarith
  refine ⟨heq, ?_, ?_⟩
  · rw [heq]
    exact Int.floor_nonneg.2 hprod0
  · rw [heq]
    have h255 : (⌊(c : ℚ) * f⌋ : ℚ) ≤ 255 := le_trans (Int.floor_le _) hle
    exact_mod_cast h255

/-- C2 amended: the strip color is the wall style's base color with each
channel multiplied by max(0.1, 1 − d/renderDistance) and truncated, where d is
the distance exactly as reported by the march — a pixel count (64 per tile
edge) — while renderDistance = 20 counts tiles; the units are mixed, so the
factor sits at its 0.1 floor for every d ≥ 18 (pixels, under a third of a tile
edge).  Every resulting channel lies in [0, 255]. -/
theorem shading_pixel_falloff (d : ℚ) (t : ℤ) (hd : 0 ≤ d) :
    shaded_color (wall_color_of t) d =
      (⌊((wall_color_of t).1 : ℚ) * shade_factor d⌋,
       ⌊((wall_color_of t).2.1 : ℚ) * shade_factor d⌋,
       ⌊((wall_color_of t).2.2 : ℚ) * shade_factor d⌋) ∧
    shade_factor d = max (1 / 10) (1 - d / RENDER_DISTANCE) ∧
    (1 / 10 ≤ shade_factor d ∧ shade_factor d ≤ 1) ∧
    (0 ≤ (shaded_color (wall_color_of t) d).1 ∧ (shaded_color (wall_color_of t) d).1 ≤ 255) ∧
    (0 ≤ (shaded_color (wall_color_of t) d).2.1 ∧ (shaded_color (wall_color_of t) d).2.1 ≤ 255) ∧
    (0 ≤ (shaded_color (wall_color_of t) d).2.2 ∧ (shaded_color (wall_color_of t) d).2.2 ≤ 255) ∧
    (18 ≤ d → shade_factor d = 1 / 10) := by
  have hf0 : (1 / 10 : ℚ) ≤ shade_factor d := le_max_left _ _
  have hf0' : (0 : ℚ) ≤ shade_factor d := le_trans (by norm_num) hf0
  have hf1 : shade_factor d ≤ 1 := by
    rw [shade_factor]
    apply max_le
    · norm_num
    · have hdr : (0 : ℚ) ≤ d / RENDER_DISTANCE := by
        apply div_nonneg hd
        rw [RENDER_DISTANCE]
        norm_num
      linarith
  have hbounds : (0 ≤ (wall_color_of t).1 ∧ (wall_color_of t).1 ≤ 255) ∧
      (0 ≤ (wall_color_of t).2.1 ∧ (wall_color_of t).2.1 ≤ 255) ∧
      (0 ≤ (wall_color_of t).2.2 ∧ (wall_color_of t).2.2 ≤ 255) := by
    rcases wall_color_mem t with h | h <;> rw [h] <;> refine ⟨⟨?_, ?_⟩, ⟨?_, ?_⟩, ?_, ?_⟩ <;> decide
  have h1 := pyInt_mul_channel (wall_color_of t).1 (shade_factor d)
    hbounds.1.1 hbounds.1.2 hf0' hf1
  have h2 := pyInt_mul_channel (wall_color_of t).2.1 (shade_factor d)
    hbounds.2.1.1 hbounds.2.1.2 hf0' hf1
  have h3 := pyInt_mul_channel (wall_color_of t).2.2 (shade_factor d)
    hbounds.2.2.1 hbounds.2.2.2 hf0' hf1
  refine ⟨?_, rfl, ⟨hf0, hf1⟩, ?_, ?_, ?_, ?_⟩
  · rw [shaded_color, h1.1, h2.1, h3.1]
  · rw [shaded_color]
    exact ⟨h1.2.1, h1.2.2⟩
  · rw [shaded_color]
    exact ⟨h2.2.1, h2.2.2⟩
  · rw [shaded_color]
    exact ⟨h3.2.1, h3.2.2⟩
  · intro h18
    rw [shade_factor, RENDER_DISTANCE]
    apply max_eq_left
    have : (18 : ℚ) / 20 ≤ d / 20 := by linarith
    linarith

/-- Witness for shading_pixel_falloff at distance 20, wall code 1. -/
theorem shading_pixel_falloff_witness :
    (0 : ℚ) ≤ 20 ∧ (1 / 10 ≤ shade_factor 20 ∧ shade_factor 20 ≤ 1) ∧
    (18 ≤ (20 : ℚ) → shade_factor 20 = 1 / 10) := by
  have h := shading_pixel_falloff 20 1 (by norm_num)
  exact ⟨by norm_num, h.2.2.1, h.2.2.2.2.2.2⟩

end Game
